import Mathlib

/-!
A shallow embedding of the FQDN-extraction script
(`.github/scripts/extract_fqdns.py`) of the repository, together with
theorems settling the specification claims about it.

Python strings are modelled as Lean `String`; the Python primitives used by
the script (`in`, `startswith`, `strip`, `split`, `replace`, `lower`) are
modelled as executable functions on the underlying character lists.
-/

/-- Python `needle in hay` on character lists: `needle` occurs as a
contiguous substring of `hay`. -/
def subList (p : List Char) : List Char → Bool
  | [] => p.isEmpty
  | c :: rest => p.isPrefixOf (c :: rest) || subList p rest

/-- Python `needle in hay` for strings. -/
def strIn (needle hay : String) : Bool := subList needle.data hay.data

/-- Python `s.startswith(p)`. -/
def pyStartsWith (s p : String) : Bool := p.data.isPrefixOf s.data

/-- Python `str.lower()` (ASCII case folding, which covers file paths and
the candidate strings the script handles). -/
def lowerStr (s : String) : String := String.mk (s.data.map Char.toLower)

/-- Python whitespace as recognized by `str.strip()`. -/
def pyIsSpace (c : Char) : Bool :=
  c = ' ' || c = '\t' || c = '\x0a' || c = '\x0d' || c = '\x0b' || c = '\x0c'

/-- Python `s.strip()`: drop leading and trailing whitespace. -/
def pyStrip (s : String) : String :=
  String.mk (((s.data.dropWhile pyIsSpace).reverse.dropWhile pyIsSpace).reverse)

/-- Splitting a character list on a separator character; always returns at
least one (possibly empty) chunk, like Python `str.split(sep)`. -/
def splitChGo (sep : Char) : List Char → List (List Char)
  | [] => [[]]
  | c :: rest =>
    if c = sep then [] :: splitChGo sep rest
    else
      match splitChGo sep rest with
      | [] => [[c]]
      | h :: t => (c :: h) :: t

/-- Python `s.split(sep)` for a one-character separator. -/
def pySplitOn (sep : Char) (s : String) : List String :=
  (splitChGo sep s.data).map String.mk

/-- Left-to-right, non-overlapping removal of every occurrence of the
pattern `p`, i.e. Python `s.replace(p, "")`.  The `skip` counter tracks the
remaining characters of a matched occurrence still to be consumed. -/
def removeAllAux (p : List Char) : Nat → List Char → List Char
  | _, [] => []
  | n + 1, _ :: rest => removeAllAux p n rest
  | 0, c :: rest =>
    if p.isPrefixOf (c :: rest) && !p.isEmpty then
      removeAllAux p (p.length - 1) rest
    else
      c :: removeAllAux p 0 rest

/-- Python `s.replace(p, "")`. -/
def removeAllStr (p s : String) : String := String.mk (removeAllAux p.data 0 s.data)

/-- The container-registry hostnames excluded by the filter
(`docker_registries` in the source). -/
def docker_registries : List String := ["ghcr.io", "docker.io", "registry.k8s.io", "quay.io"]

/-- The deny-list of placeholder/loopback patterns (`invalid_patterns` in
the source). -/
def invalid_patterns : List String :=
  ["example.com", "example.local", "chart-example.local", "localhost",
   "127.0.0.1", "0.0.0.0", ".local", "example.org", "test.com"]

/-- The validity filter `is_valid_fqdn` of the source, as an executable
chain of early-return tests. -/
def is_valid_fqdn (fqdn : String) : Bool :=
  if strIn "@" fqdn then false
  else if docker_registries.any (fun registry => pyStartsWith fqdn registry) then false
  else if invalid_patterns.any (fun pat => strIn pat (lowerStr fqdn)) then false
  else if !(strIn "." fqdn) || strIn "\x7b" fqdn || strIn "\x7d" fqdn
      || pyStartsWith fqdn "\x7b\x7b" || strIn "$(" fqdn then false
  else true

/-- The parsed YAML documents the script walks: strings, non-string
scalars (numbers, booleans, null — recorded with their Python truthiness),
mappings with insertion-ordered entries, and sequences. -/
inductive Yaml where
  | str (s : String)
  | other (truthy : Bool)
  | map (entries : List (String × Yaml))
  | seq (items : List Yaml)

/-- Python `isinstance(v, str)` on a parsed value. -/
def isStrY : Yaml → Bool
  | .str _ => true
  | _ => false

/-- Python `isinstance(v, list)` on a parsed value. -/
def isSeqY : Yaml → Bool
  | .seq _ => true
  | _ => false

/-- The string payload of a string node (only consulted under an `isStrY`
guard). -/
def strOf : Yaml → String
  | .str s => s
  | _ => ""

/-- The items of a sequence node (only consulted under an `isSeqY` guard). -/
def seqOf : Yaml → List Yaml
  | .seq l => l
  | _ => []

/-- The string rule shared by the `host`/`commonName`/`value` branches:
contains a dot, does not start with `http`, passes the validity filter. -/
def strRule (value : String) : List String :=
  if strIn "." value && !pyStartsWith value "http" && is_valid_fqdn value then [value] else []

/-- The `hosts`/`dnsNames` branch: each string element of the sequence is
tested with the string rule. -/
def hostsRule : List Yaml → List String
  | [] => []
  | .str item :: rest =>
      (if strIn "." item && !pyStartsWith item "http" && is_valid_fqdn item then [item] else [])
        ++ hostsRule rest
  | _ :: rest => hostsRule rest

/-- The per-line handling of a `patch` multi-line string: strip the line,
keep lines starting with `value: `, remove every occurrence of `value: `
(Python `str.replace`), strip, and apply the string rule. -/
def patchLinesGo : List String → List String
  | [] => []
  | line :: rest =>
      (let l := pyStrip line
       if pyStartsWith l "value: " then
         let potential_fqdn := pyStrip (removeAllStr "value: " l)
         if strIn "." potential_fqdn && !pyStartsWith potential_fqdn "http"
             && is_valid_fqdn potential_fqdn then
           [potential_fqdn]
         else []
       else []) ++ patchLinesGo rest

/-- The `patch` branch of the extractor: split the string into lines and
process each line. -/
def patchRule (value : String) : List String :=
  patchLinesGo (pySplitOn '\x0a' value)

mutual

/-- `extract_fqdn_recursive` of the source: recursive descent over a parsed
document collecting candidate strings, threaded with the two context
flags. -/
def extract_fqdn_recursive : Yaml → Bool → Bool → List String
  | .map entries, ing, kus => extractEntries entries ing kus
  | .seq items, ing, kus => extractItems items ing kus
  | .str _, _, _ => []
  | .other _, _, _ => []
termination_by y _ _ => (sizeOf y, 0)

/-- The dict branch: handle the entries of a mapping in order. -/
def extractEntries : List (String × Yaml) → Bool → Bool → List String
  | [], _, _ => []
  | (key, value) :: rest, ing, kus =>
      extractEntry key value ing kus ++ extractEntries rest ing kus
termination_by es _ _ => (sizeOf es, 0)

/-- One `key, value` pair of a mapping: the `elif` chain of the source. -/
def extractEntry : String → Yaml → Bool → Bool → List String
  | key, value, ing, kus =>
      if (key == "host" || key == "commonName") && isStrY value then
        strRule (strOf value)
      else if (key == "hosts" || key == "dnsNames") && isSeqY value then
        hostsRule (seqOf value)
      else if key == "value" && isStrY value && kus then
        strRule (strOf value)
      else if key == "patch" && isStrY value && kus then
        patchRule (strOf value)
      else if key == "path" && isStrY value then
        []
      else
        extract_fqdn_recursive value ing kus
termination_by _ v _ _ => (sizeOf v, 1)

/-- The list branch: recurse into every element. -/
def extractItems : List Yaml → Bool → Bool → List String
  | [], _, _ => []
  | x :: rest, ing, kus =>
      extract_fqdn_recursive x ing kus ++ extractItems rest ing kus
termination_by its _ _ => (sizeOf its, 0)

end

/-- The alert record attached to every endpoint.  The hyphenated Python
keys `failure-threshold` and `success-threshold` are written as
`failureThreshold` and `successThreshold`. -/
structure Alert where
  type : String
  failureThreshold : Nat
  successThreshold : Nat
deriving DecidableEq

/-- One Gatus endpoint record, as built by `create_simple_endpoint`. -/
structure Endpoint where
  name : String
  url : String
  interval : String
  conditions : List String
  alerts : List Alert
deriving DecidableEq

/-- `create_simple_endpoint` of the source: synthesize the endpoint record
for one FQDN.  The `app_name` and `source_file` arguments are accepted (as
in the source) but the body never reads them. -/
def create_simple_endpoint (fqdn app_name source_file : String) : Endpoint :=
  let endpoint_name :=
    if strIn "prodv2" fqdn then
      let subdomain := (pySplitOn '.' fqdn).headD ""
      subdomain ++ "-prod"
    else
      let subdomain := (pySplitOn '.' fqdn).headD ""
      subdomain
  { name := endpoint_name
    url := "https://" ++ fqdn
    interval := "5m"
    conditions := ["[STATUS] == 200", "[RESPONSE_TIME] < 3000"]
    alerts := [{ type := "discord", failureThreshold := 3, successThreshold := 2 }] }

/-- The ingress-context flag of `find_fqdn_in_yaml`: the lowered full path
string contains `ingress.yaml`. -/
def is_ingress_context (file_path : String) : Bool :=
  strIn "ingress.yaml" (lowerStr file_path)

/-- The kustomization-context flag of `find_fqdn_in_yaml`: the lowered full
path string contains `kustomization.yaml`. -/
def is_kustomization_context (file_path : String) : Bool :=
  strIn "kustomization.yaml" (lowerStr file_path)

/-- Python truthiness of a parsed document (`if doc:` skips falsy ones). -/
def pyTruthy : Yaml → Bool
  | .str s => !s.data.isEmpty
  | .other b => b
  | .map entries => !entries.isEmpty
  | .seq items => !items.isEmpty

/-- Extraction over the documents of one file, skipping falsy documents. -/
def docsExtract : List Yaml → Bool → Bool → List String
  | [], _, _ => []
  | d :: rest, ing, kus =>
      (if pyTruthy d then extract_fqdn_recursive d ing kus else []) ++ docsExtract rest ing kus

/-- `find_fqdn_in_yaml` of the source, with the file I/O and the lazy
`yaml.safe_load_all` stream abstracted into two arguments: `docs` is the
(possibly empty) prefix of documents the generator yields before the
iteration ends, and `err` is the exception, if any, that ends it — a
parse error raised while producing the next document, or a failure to
open the file (then `docs` is `[]`).  The body mirrors the source:
`fqdns` is initialized before the `try`, the loop extends it with each
yielded document's candidates, and the `except` handler prints the error
line, leaving the already-accumulated list to be returned.  Returns the
candidate list together with the printed lines. -/
def find_fqdn_in_yaml (file_path : String) (docs : List Yaml) (err : Option String) :
    List String × List String :=
  if strIn "/templates/" file_path || strIn "\\templates\\" file_path then ([], [])
  else
    (docsExtract docs (is_ingress_context file_path) (is_kustomization_context file_path),
     match err with
     | some e => ["Erreur lors de la lecture de " ++ file_path ++ ": " ++ e]
     | none => [])

/-- The app-name derivation of `main` from the path components of a file
(`path_parts` in the source). -/
def appNameOf (path_parts : List String) : String :=
  match path_parts with
  | _ :: p1 :: rest =>
      match rest with
      | p2 :: _ => if p2 ≠ "base" ∧ p2 ≠ "prod" then p1 ++ "-" ++ p2 else p1
      | [] => p1
  | _ => "unknown"

/-- The path string of a file given its components (`str(yaml_file)`). -/
def pathOf : List String → String
  | [] => ""
  | [p] => p
  | p :: rest => p ++ "/" ++ pathOf rest

/-- One input file of a run: its path components, the documents its lazy
parse stream yields, and the exception, if any, that ends the stream. -/
structure InputFile where
  parts : List String
  docs : List Yaml
  err : Option String

/-- The FQDN record accumulated by `main` (`endpoint_info` in the source). -/
structure FqdnRec where
  fqdn : String
  source_file : String
  app_name : String
deriving DecidableEq

/-- The records contributed by one file in `main`'s walk. -/
def fileRecs (f : InputFile) : List FqdnRec :=
  (find_fqdn_in_yaml (pathOf f.parts) f.docs f.err).1.map
    (fun fq => { fqdn := fq, source_file := pathOf f.parts, app_name := appNameOf f.parts })

/-- `main`'s walk over the enumerated files, accumulating `all_fqdns`. -/
def collectAll : List InputFile → List FqdnRec
  | [] => []
  | f :: rest => fileRecs f ++ collectAll rest

/-- The deduplication loop of `main`: keep a record only when its FQDN has
not been seen yet (the `seen_fqdns` set is modelled by a membership
list). -/
def dedupGo (seen : List String) : List FqdnRec → List FqdnRec
  | [] => []
  | r :: rest =>
      if seen.contains r.fqdn then dedupGo seen rest
      else r :: dedupGo (r.fqdn :: seen) rest

/-- `unique_fqdns` of the source: deduplicate keeping first occurrences. -/
def unique_fqdns (all_fqdns : List FqdnRec) : List FqdnRec :=
  dedupGo [] all_fqdns

/-- The final sort of `main`: ascending by the `fqdn` field (a stable sort,
like Python `list.sort(key=...)`). -/
def sortByFqdn (l : List FqdnRec) : List FqdnRec :=
  List.insertionSort (fun a b => a.fqdn ≤ b.fqdn) l

/-- The emitted `endpoints` sequence of a run, given the collected
records. -/
def endpoints_list (all_fqdns : List FqdnRec) : List Endpoint :=
  (sortByFqdn (unique_fqdns all_fqdns)).map
    (fun r => create_simple_endpoint r.fqdn r.app_name r.source_file)

/-- Modelled from the spec: the per-line `patch` rule as the claim states
it — a line that after trimming whitespace begins with the literal prefix
`value: ` yields exactly the remainder of that line after the prefix,
trimmed, as the candidate (subject to the same dot/`http` string rule and
the validity filter); lines not beginning with that prefix yield
nothing. -/
def patchLinesSpecGo : List String → List String
  | [] => []
  | line :: rest =>
      (let l := pyStrip line
       if pyStartsWith l "value: " then
         let cand := pyStrip (String.mk (l.data.drop ("value: ".data.length)))
         if strIn "." cand && !pyStartsWith cand "http" && is_valid_fqdn cand then [cand] else []
       else []) ++ patchLinesSpecGo rest

/-- Modelled from the spec: the claim's `patch` extraction — split into
lines and apply the spec's per-line rule. -/
def patchRuleSpec (value : String) : List String :=
  patchLinesSpecGo (pySplitOn '\x0a' value)

/-- Modelled from the spec: the base name of a file path — its final
`/`-separated component. -/
def baseNameSpec (p : String) : String := (pySplitOn '/' p).getLastD ""

instance : IsTotal FqdnRec (fun a b => a.fqdn ≤ b.fqdn) :=
  ⟨fun a b => le_total a.fqdn b.fqdn⟩

instance : IsTrans FqdnRec (fun a b => a.fqdn ≤ b.fqdn) :=
  ⟨fun _ _ _ h1 h2 => le_trans h1 h2⟩

/-! ### Helper lemmas about the string primitives -/

theorem subList_eq_true_iff (p : List Char) : ∀ l : List Char, subList p l = true ↔ p <:+: l := by
  intro l
  induction l with
  | nil =>
    rw [List.infix_nil]
    simp [subList, List.isEmpty_iff]
  | cons c rest ih =>
    simp only [subList, Bool.or_eq_true, List.isPrefixOf_iff_prefix, ih]
    exact (List.infix_cons_iff).symm

theorem strIn_eq_true_iff (needle hay : String) :
    strIn needle hay = true ↔ needle.data <:+: hay.data :=
  subList_eq_true_iff needle.data hay.data

theorem pyStartsWith_eq_true_iff (s p : String) :
    pyStartsWith s p = true ↔ p.data <+: s.data :=
  List.isPrefixOf_iff_prefix

theorem singleton_infix_iff (c : Char) (l : List Char) : [c] <:+: l ↔ c ∈ l := by
  constructor
  · rintro ⟨s, t, rfl⟩
    simp
  · intro h
    rcases List.append_of_mem h with ⟨s, t, rfl⟩
    exact ⟨s, t, by simp⟩

theorem strIn_singleton_iff (c : Char) (s : String) :
    strIn (String.mk [c]) s = true ↔ c ∈ s.data := by
  rw [strIn_eq_true_iff]
  exact singleton_infix_iff c s.data

theorem splitChGo_head (sep : Char) :
    ∀ l : List Char, ∃ t, splitChGo sep l = l.takeWhile (fun c => !(c == sep)) :: t := by
  intro l
  induction l with
  | nil => exact ⟨[], rfl⟩
  | cons c rest ih =>
    by_cases hc : c = sep
    · subst hc
      refine ⟨splitChGo c rest, ?_⟩
      simp [splitChGo, List.takeWhile]
    · rcases ih with ⟨t, ht⟩
      refine ⟨t, ?_⟩
      simp only [splitChGo, if_neg hc, ht]
      have : (c == sep) = false := by simp [hc]
      simp [List.takeWhile, this]

theorem pySplitOn_head (sep : Char) (s : String) :
    (pySplitOn sep s).headD "" = String.mk (s.data.takeWhile (fun c => !(c == sep))) := by
  rcases splitChGo_head sep s.data with ⟨t, ht⟩
  simp [pySplitOn, ht]

theorem collectAll_append (a b : List InputFile) :
    collectAll (a ++ b) = collectAll a ++ collectAll b := by
  induction a with
  | nil => rfl
  | cons f rest ih => simp [collectAll, ih]

theorem string_append_cancel {s a b : String} (h : s ++ a = s ++ b) : a = b := by
  have hd : (s ++ a).data = (s ++ b).data := by rw [h]
  rw [String.data_append, String.data_append] at hd
  have hab := List.append_cancel_left hd
  cases a; cases b
  exact congrArg String.mk hab

theorem string_append_beq (s a b : String) : ((s ++ a) == (s ++ b)) = (a == b) := by
  by_cases hab : a = b
  · simp [hab]
  · have hne : ¬ s ++ a = s ++ b := fun hc => hab (string_append_cancel hc)
    simp [hab, hne]

theorem dedupGo_filter_mem (f : String) :
    ∀ (l : List FqdnRec) (seen : List String), f ∈ seen →
      (dedupGo seen l).filter (fun r => r.fqdn == f) = [] := by
  intro l
  induction l with
  | nil => intro seen _; rfl
  | cons r rest ih =>
    intro seen h
    by_cases hc : seen.contains r.fqdn = true
    · simp only [dedupGo, if_pos hc]
      exact ih seen h
    · simp only [dedupGo, if_neg hc]
      have hrf : (r.fqdn == f) = false := by
        rw [beq_eq_false_iff_ne]
        rintro rfl
        exact hc (List.elem_iff.mpr h)
      simp only [List.filter_cons, hrf]
      rw [if_neg (fun hx => Bool.noConfusion hx)]
      exact ih (r.fqdn :: seen) (List.mem_cons_of_mem _ h)

theorem dedupGo_filter_not_mem (f : String) :
    ∀ (l : List FqdnRec) (seen : List String), ¬ f ∈ seen →
      (dedupGo seen l).filter (fun r => r.fqdn == f)
        = (l.filter (fun r => r.fqdn == f)).take 1 := by
  intro l
  induction l with
  | nil => intro seen _; rfl
  | cons r rest ih =>
    intro seen h
    by_cases hc : seen.contains r.fqdn = true
    · have hrf : (r.fqdn == f) = false := by
        rw [beq_eq_false_iff_ne]
        rintro rfl
        exact h (List.elem_iff.mp hc)
      simp only [dedupGo, if_pos hc, List.filter_cons, hrf]
      rw [if_neg (fun hx => Bool.noConfusion hx)]
      exact ih seen h
    · by_cases hrf : (r.fqdn == f) = true
      · have hf : r.fqdn = f := by simpa using hrf
        simp only [dedupGo, if_neg hc, List.filter_cons, hrf, if_pos trivial]
        rw [dedupGo_filter_mem f rest (r.fqdn :: seen) (by simp [hf])]
        simp
      · have hrf' : (r.fqdn == f) = false := by simpa using hrf
        simp only [dedupGo, if_neg hc, List.filter_cons, hrf']
        rw [if_neg (fun hx => Bool.noConfusion hx)]
        have hnotin : ¬ f ∈ r.fqdn :: seen := by
          intro hm
          rcases List.mem_cons.mp hm with hm | hm
          · exact hrf (by simp [hm])
          · exact h hm
        exact ih (r.fqdn :: seen) hnotin

theorem dedupGo_not_mem_seen :
    ∀ (l : List FqdnRec) (seen : List String) (r : FqdnRec),
      r ∈ dedupGo seen l → ¬ r.fqdn ∈ seen := by
  intro l
  induction l with
  | nil => intro seen r h; simp [dedupGo] at h
  | cons x rest ih =>
    intro seen r h
    by_cases hc : seen.contains x.fqdn = true
    · rw [dedupGo, if_pos hc] at h
      exact ih seen r h
    · rw [dedupGo, if_neg hc] at h
      rcases List.mem_cons.mp h with h | h
      · subst h
        exact fun hm => hc (List.elem_iff.mpr hm)
      · have := ih (x.fqdn :: seen) r h
        exact fun hm => this (List.mem_cons_of_mem _ hm)

theorem dedupGo_pairwise :
    ∀ (l : List FqdnRec) (seen : List String),
      (dedupGo seen l).Pairwise (fun a b => a.fqdn ≠ b.fqdn) := by
  intro l
  induction l with
  | nil => intro seen; simp [dedupGo]
  | cons x rest ih =>
    intro seen
    by_cases hc : seen.contains x.fqdn = true
    · simp only [dedupGo, if_pos hc]
      exact ih seen
    · simp only [dedupGo, if_neg hc]
      refine List.Pairwise.cons ?_ (ih _)
      intro b hb he
      have hmem := dedupGo_not_mem_seen rest (x.fqdn :: seen) b hb
      exact hmem (by rw [← he]; exact List.mem_cons_self _ _)

mutual

theorem extract_ing_aux (y : Yaml) (i j k : Bool) :
    extract_fqdn_recursive y i k = extract_fqdn_recursive y j k := by
  cases y with
  | str s => simp [extract_fqdn_recursive]
  | other b => simp [extract_fqdn_recursive]
  | map entries =>
    simp only [extract_fqdn_recursive]
    exact entries_ing_aux entries i j k
  | seq items =>
    simp only [extract_fqdn_recursive]
    exact items_ing_aux items i j k
termination_by (sizeOf y, 0)

theorem entries_ing_aux (es : List (String × Yaml)) (i j k : Bool) :
    extractEntries es i k = extractEntries es j k := by
  match es with
  | [] => simp [extractEntries]
  | (key, v) :: rest =>
    have h1 := entry_ing_aux key v i j k
    have h2 := entries_ing_aux rest i j k
    simp only [extractEntries, h1, h2]
termination_by (sizeOf es, 0)

theorem entry_ing_aux (key : String) (v : Yaml) (i j k : Bool) :
    extractEntry key v i k = extractEntry key v j k := by
  have h := extract_ing_aux v i j k
  simp only [extractEntry]
  split_ifs <;> first | rfl | exact h
termination_by (sizeOf v, 1)

theorem items_ing_aux (its : List Yaml) (i j k : Bool) :
    extractItems its i k = extractItems its j k := by
  match its with
  | [] => simp [extractItems]
  | x :: rest =>
    have h1 := extract_ing_aux x i j k
    have h2 := items_ing_aux rest i j k
    simp only [extractItems, h1, h2]
termination_by (sizeOf its, 0)

end

theorem extract_map_cons (key : String) (v : Yaml) (rest : List (String × Yaml)) (i k : Bool) :
    extract_fqdn_recursive (.map ((key, v) :: rest)) i k
      = extractEntry key v i k ++ extract_fqdn_recursive (.map rest) i k := by
  simp only [extract_fqdn_recursive, extractEntries]

theorem extractEntry_patch (v : String) (i : Bool) :
    extractEntry "patch" (.str v) i true = patchRule v := by
  simp [extractEntry, isStrY, strOf]

theorem patchLinesGo_eq_flatMap (ls : List String) :
    patchLinesGo ls = ls.flatMap (fun line =>
      if pyStartsWith (pyStrip line) "value: " then
        strRule (pyStrip (removeAllStr "value: " (pyStrip line)))
      else []) := by
  induction ls with
  | nil => rfl
  | cons line rest ih =>
    simp only [patchLinesGo, List.flatMap_cons, ih, strRule]

theorem sortByFqdn_sorted (l : List FqdnRec) :
    (sortByFqdn l).Sorted (fun a b => a.fqdn ≤ b.fqdn) :=
  List.sorted_insertionSort _ l

theorem sortByFqdn_perm (l : List FqdnRec) : List.Perm (sortByFqdn l) l :=
  List.perm_insertionSort _ l

theorem create_simple_endpoint_url (fqdn a s : String) :
    (create_simple_endpoint fqdn a s).url = "https://" ++ fqdn := rfl

theorem fileRecs_nil_docs (parts : List String) (err : Option String) :
    fileRecs { parts := parts, docs := [], err := err } = [] := by
  simp only [fileRecs, find_fqdn_in_yaml]
  split <;> rfl

theorem find_fqdn_eval (p : String) (docs : List Yaml) (err : Option String)
    (h : (strIn "/templates/" p || strIn "\\templates\\" p) = false) :
    find_fqdn_in_yaml p docs err
      = (docsExtract docs (is_ingress_context p) (is_kustomization_context p),
         match err with
         | some e => ["Erreur lors de la lecture de " ++ p ++ ": " ++ e]
         | none => []) := by
  unfold find_fqdn_in_yaml
  rw [h, if_neg (fun hx => Bool.noConfusion hx)]

theorem is_valid_fqdn_eq (fqdn : String) :
    is_valid_fqdn fqdn
      = (!strIn "@" fqdn
        && !(docker_registries.any fun r => pyStartsWith fqdn r)
        && !(invalid_patterns.any fun p => strIn p (lowerStr fqdn))
        && !(!(strIn "." fqdn) || strIn "\x7b" fqdn || strIn "\x7d" fqdn
              || pyStartsWith fqdn "\x7b\x7b" || strIn "$(" fqdn)) := by
  unfold is_valid_fqdn
  cases h1 : strIn "@" fqdn <;>
    cases h2 : docker_registries.any fun r => pyStartsWith fqdn r <;>
      cases h3 : invalid_patterns.any fun p => strIn p (lowerStr fqdn) <;>
        cases h4 : (!(strIn "." fqdn) || strIn "\x7b" fqdn || strIn "\x7d" fqdn
              || pyStartsWith fqdn "\x7b\x7b" || strIn "$(" fqdn) <;>
          simp [h1, h2, h3, h4]

theorem extract_map_nil (i k : Bool) : extract_fqdn_recursive (.map []) i k = [] := by
  simp [extract_fqdn_recursive, extractEntries]

/-- C1 (counterexample): on the kustomization patch line
`value: value: api.ecole.ca` the extractor yields `api.ecole.ca` (Python
`str.replace` removes every occurrence of `value: `), while the claim's
rule — the remainder after the prefix, trimmed — prescribes
`value: api.ecole.ca`; the two candidate lists differ. -/
theorem C1_counterexample :
    extract_fqdn_recursive (.map [("patch", .str "value: value: api.ecole.ca")]) false true
        = ["api.ecole.ca"]
      ∧ patchRuleSpec "value: value: api.ecole.ca" = ["value: api.ecole.ca"]
      ∧ (["api.ecole.ca"] : List String) ≠ ["value: api.ecole.ca"] := by
  refine ⟨?_, by decide, by decide⟩
  rw [extract_map_cons, extractEntry_patch, extract_map_nil]
  decide

/-- C1 (amended): for every multi-line string under a `patch` key in
kustomization context, a line that after trimming begins with `value: `
yields, as the candidate, the trimmed line with every occurrence of
`value: ` removed (left to right, non-overlapping) and trimmed again,
subject to the dot/`http` string rule and the validity filter
(`strRule`); lines not beginning with that prefix yield nothing. -/
theorem C1_patch_extraction (v : String) (rest : List (String × Yaml)) (ing : Bool) :
    extract_fqdn_recursive (.map (("patch", .str v) :: rest)) ing true
      = (pySplitOn '\x0a' v).flatMap (fun line =>
          if pyStartsWith (pyStrip line) "value: " then
            strRule (pyStrip (removeAllStr "value: " (pyStrip line)))
          else []) ++ extract_fqdn_recursive (.map rest) ing true := by
  rw [extract_map_cons, extractEntry_patch]
  unfold patchRule
  rw [patchLinesGo_eq_flatMap]

/-- C2 (counterexample): `yaml.safe_load_all` parses lazily and `fqdns`
is accumulated as the loop advances, so a mid-stream parse error does not
erase the candidates of the documents already yielded: with a first
document carrying `host: grafana.cedille.club` and an error raised while
producing the second, the error is caught and logged, yet the file
contributes one candidate — not zero. -/
theorem C2_counterexample :
    (find_fqdn_in_yaml "apps/foo/ingress.yaml"
        [.map [("host", .str "grafana.cedille.club")]] (some "boom")).1
      = ["grafana.cedille.club"]
    ∧ (find_fqdn_in_yaml "apps/foo/ingress.yaml"
        [.map [("host", .str "grafana.cedille.club")]] (some "boom")).2
      = ["Erreur lors de la lecture de apps/foo/ingress.yaml: boom"]
    ∧ (["grafana.cedille.club"] : List String) ≠ [] := by
  have hing : is_ingress_context "apps/foo/ingress.yaml" = true := by decide
  have hkus : is_kustomization_context "apps/foo/ingress.yaml" = false := by decide
  have htr : pyTruthy (.map [("host", .str "grafana.cedille.club")]) = true := by decide
  rw [find_fqdn_eval _ _ _ (by decide), hing, hkus]
  refine ⟨?_, by decide, by decide⟩
  simp only [docsExtract, htr, if_true, List.append_nil]
  rw [extract_map_cons, extract_map_nil]
  simp only [extractEntry, List.append_nil]
  decide

/-- C2 (amended): a file whose parsing raises an error has the error
caught and logged with its path; because the document stream is parsed
lazily, the file contributes exactly the candidates of the documents
successfully yielded before the error — zero when the error precedes the
first document — and the walk over the remaining files is unaffected. -/
theorem C2_parse_error_partial (before after : List InputFile) (parts : List String)
    (docs : List Yaml) (e : String)
    (h : (strIn "/templates/" (pathOf parts) || strIn "\\templates\\" (pathOf parts)) = false) :
    (find_fqdn_in_yaml (pathOf parts) docs (some e)).1
        = (find_fqdn_in_yaml (pathOf parts) docs none).1
      ∧ (find_fqdn_in_yaml (pathOf parts) [] (some e)).1 = []
      ∧ (find_fqdn_in_yaml (pathOf parts) docs (some e)).2
          = ["Erreur lors de la lecture de " ++ pathOf parts ++ ": " ++ e]
      ∧ collectAll (before ++ { parts := parts, docs := docs, err := some e } :: after)
          = collectAll before
            ++ fileRecs { parts := parts, docs := docs, err := some e }
            ++ collectAll after
      ∧ collectAll (before ++ { parts := parts, docs := [], err := some e } :: after)
          = collectAll (before ++ after) := by
  have hsome := find_fqdn_eval (pathOf parts) docs (some e) h
  refine ⟨?_, ?_, by rw [hsome], ?_, ?_⟩
  · rw [hsome, find_fqdn_eval (pathOf parts) docs none h]
  · rw [find_fqdn_eval (pathOf parts) [] (some e) h]
    rfl
  · rw [collectAll_append]
    simp [collectAll, List.append_assoc]
  · rw [collectAll_append, collectAll_append]
    simp [collectAll, fileRecs_nil_docs]

/-- C3 (counterexample): the context flags are computed from the whole
path string, not the base name: for `apps/ingress.yaml/config.yaml` the
ingress flag is set although the base name `config.yaml` does not contain
`ingress.yaml`. -/
theorem C3_counterexample :
    is_ingress_context "apps/ingress.yaml/config.yaml" = true
      ∧ strIn "ingress.yaml"
          (lowerStr (baseNameSpec "apps/ingress.yaml/config.yaml")) = false := by
  decide

/-- C3 (amended): the ingress flag is set iff the lowercased full path
string contains `ingress.yaml` as a substring, and the kustomization flag
iff it contains `kustomization.yaml`; any path component, not only the
base name, can trigger either flag. -/
theorem C3_context_flags (file_path : String) :
    (is_ingress_context file_path = true
        ↔ "ingress.yaml".data <:+: (lowerStr file_path).data)
      ∧ (is_kustomization_context file_path = true
        ↔ "kustomization.yaml".data <:+: (lowerStr file_path).data) :=
  ⟨strIn_eq_true_iff _ _, strIn_eq_true_iff _ _⟩

/-- C4: the validity filter accepts a candidate iff it contains no `@`,
starts with none of the four registry hosts, contains none of the nine
deny-list patterns as a substring of its lowercasing, contains a dot,
contains neither brace, does not contain `$(`, and does not start with a
double brace. -/
theorem C4_validity_filter (fqdn : String) :
    is_valid_fqdn fqdn = true ↔
      (¬ '@' ∈ fqdn.data
        ∧ ¬ "ghcr.io".data <+: fqdn.data
        ∧ ¬ "docker.io".data <+: fqdn.data
        ∧ ¬ "registry.k8s.io".data <+: fqdn.data
        ∧ ¬ "quay.io".data <+: fqdn.data
        ∧ ¬ "example.com".data <:+: (lowerStr fqdn).data
        ∧ ¬ "example.local".data <:+: (lowerStr fqdn).data
        ∧ ¬ "chart-example.local".data <:+: (lowerStr fqdn).data
        ∧ ¬ "localhost".data <:+: (lowerStr fqdn).data
        ∧ ¬ "127.0.0.1".data <:+: (lowerStr fqdn).data
        ∧ ¬ "0.0.0.0".data <:+: (lowerStr fqdn).data
        ∧ ¬ ".local".data <:+: (lowerStr fqdn).data
        ∧ ¬ "example.org".data <:+: (lowerStr fqdn).data
        ∧ ¬ "test.com".data <:+: (lowerStr fqdn).data
        ∧ '.' ∈ fqdn.data
        ∧ ¬ '\x7b' ∈ fqdn.data
        ∧ ¬ '\x7d' ∈ fqdn.data
        ∧ ¬ "$(".data <:+: fqdn.data
        ∧ ¬ "\x7b\x7b".data <+: fqdn.data) := by
  rw [is_valid_fqdn_eq]
  unfold docker_registries invalid_patterns
  simp only [List.any_cons, List.any_nil, Bool.or_false, Bool.and_eq_true,
    Bool.not_eq_true', Bool.or_eq_false_iff, Bool.not_eq_false',
    Bool.eq_false_iff, ne_eq, Bool.or_eq_true, not_or,
    strIn_eq_true_iff, pyStartsWith_eq_true_iff, singleton_infix_iff]
  tauto

/-- C5: when an FQDN occurs more than once in the collected records,
exactly the first occurrence (with its provenance) survives
deduplication, exactly one endpoint with its URL is emitted, and the
deduplicated records have pairwise distinct FQDNs. -/
theorem C5_dedup_first_occurrence (all_fqdns : List FqdnRec) (f : String)
    (h : 1 < (all_fqdns.filter (fun r => r.fqdn == f)).length) :
    (unique_fqdns all_fqdns).filter (fun r => r.fqdn == f)
        = (all_fqdns.filter (fun r => r.fqdn == f)).take 1
      ∧ ((endpoints_list all_fqdns).filter
            (fun ep => ep.url == "https://" ++ f)).length = 1
      ∧ (unique_fqdns all_fqdns).Pairwise (fun a b => a.fqdn ≠ b.fqdn) := by
  have h1 : (unique_fqdns all_fqdns).filter (fun r => r.fqdn == f)
      = (all_fqdns.filter (fun r => r.fqdn == f)).take 1 :=
    dedupGo_filter_not_mem f all_fqdns [] (by simp)
  refine ⟨h1, ?_, dedupGo_pairwise all_fqdns []⟩
  have hlen1 : ((unique_fqdns all_fqdns).filter (fun r => r.fqdn == f)).length = 1 := by
    rw [h1, List.length_take]
    omega
  have hp : (fun r : FqdnRec =>
        (create_simple_endpoint r.fqdn r.app_name r.source_file).url == "https://" ++ f)
      = (fun r : FqdnRec => r.fqdn == f) := by
    funext r
    rw [create_simple_endpoint_url, string_append_beq]
  calc ((endpoints_list all_fqdns).filter (fun ep => ep.url == "https://" ++ f)).length
      = ((sortByFqdn (unique_fqdns all_fqdns)).map
          (fun r => create_simple_endpoint r.fqdn r.app_name r.source_file)).countP
          (fun ep => ep.url == "https://" ++ f) := by
        rw [← List.countP_eq_length_filter]
        rfl
    _ = (sortByFqdn (unique_fqdns all_fqdns)).countP
          (fun r => (create_simple_endpoint r.fqdn r.app_name r.source_file).url
              == "https://" ++ f) := by
        rw [List.countP_map]
        rfl
    _ = (sortByFqdn (unique_fqdns all_fqdns)).countP (fun r => r.fqdn == f) := by rw [hp]
    _ = (unique_fqdns all_fqdns).countP (fun r => r.fqdn == f) :=
        (sortByFqdn_perm _).countP_eq _
    _ = ((unique_fqdns all_fqdns).filter (fun r => r.fqdn == f)).length :=
        List.countP_eq_length_filter _ _
    _ = 1 := hlen1

/-- C5 witness: a concrete run with the same FQDN found in two files. -/
theorem C5_witness :
    1 < (([{ fqdn := "status.cedille.club", source_file := "apps/x/ingress.yaml",
             app_name := "x" },
           { fqdn := "status.cedille.club", source_file := "apps/y/ingress.yaml",
             app_name := "y" }] : List FqdnRec).filter
          (fun r => r.fqdn == "status.cedille.club")).length
      ∧ ((unique_fqdns
            [{ fqdn := "status.cedille.club", source_file := "apps/x/ingress.yaml",
               app_name := "x" },
             { fqdn := "status.cedille.club", source_file := "apps/y/ingress.yaml",
               app_name := "y" }]).filter (fun r => r.fqdn == "status.cedille.club")
            = (([{ fqdn := "status.cedille.club", source_file := "apps/x/ingress.yaml",
                   app_name := "x" },
                 { fqdn := "status.cedille.club", source_file := "apps/y/ingress.yaml",
                   app_name := "y" }] : List FqdnRec).filter
                (fun r => r.fqdn == "status.cedille.club")).take 1
          ∧ ((endpoints_list
                [{ fqdn := "status.cedille.club", source_file := "apps/x/ingress.yaml",
                   app_name := "x" },
                 { fqdn := "status.cedille.club", source_file := "apps/y/ingress.yaml",
                   app_name := "y" }]).filter
              (fun ep => ep.url == "https://" ++ "status.cedille.club")).length = 1
          ∧ (unique_fqdns
                [{ fqdn := "status.cedille.club", source_file := "apps/x/ingress.yaml",
                   app_name := "x" },
                 { fqdn := "status.cedille.club", source_file := "apps/y/ingress.yaml",
                   app_name := "y" }]).Pairwise (fun a b => a.fqdn ≠ b.fqdn)) :=
  ⟨by decide,
   C5_dedup_first_occurrence
     [{ fqdn := "status.cedille.club", source_file := "apps/x/ingress.yaml",
        app_name := "x" },
      { fqdn := "status.cedille.club", source_file := "apps/y/ingress.yaml",
        app_name := "y" }] "status.cedille.club" (by decide)⟩

/-- C6: the emitted endpoint sequence is built from the deduplicated
records sorted strictly ascending by FQDN string, whatever the discovery
order was. -/
theorem C6_endpoints_sorted (all_fqdns : List FqdnRec) :
    (sortByFqdn (unique_fqdns all_fqdns)).Sorted (fun a b => a.fqdn < b.fqdn)
      ∧ endpoints_list all_fqdns
          = (sortByFqdn (unique_fqdns all_fqdns)).map
              (fun r => create_simple_endpoint r.fqdn r.app_name r.source_file) := by
  refine ⟨?_, rfl⟩
  have hs : (sortByFqdn (unique_fqdns all_fqdns)).Pairwise (fun a b => a.fqdn ≤ b.fqdn) :=
    sortByFqdn_sorted _
  have hne : (sortByFqdn (unique_fqdns all_fqdns)).Pairwise (fun a b => a.fqdn ≠ b.fqdn) :=
    ((sortByFqdn_perm (unique_fqdns all_fqdns)).pairwise_iff
      (fun hab => Ne.symm hab)).mpr (dedupGo_pairwise all_fqdns [])
  exact (hs.and hne).imp (fun hab => lt_of_le_of_ne hab.1 hab.2)

/-- C7: for every FQDN containing a dot the synthesized endpoint carries
the prescribed name (first label, with `-prod` appended when the FQDN
contains `prodv2`), URL `https://` followed by the FQDN, interval `5m`,
the two fixed conditions, and the single fixed discord alert. -/
theorem C7_endpoint_shape (fqdn app_name source_file : String)
    (h : strIn "." fqdn = true) :
    create_simple_endpoint fqdn app_name source_file =
      { name :=
          if strIn "prodv2" fqdn then
            String.mk (fqdn.data.takeWhile (fun c => !(c == '.'))) ++ "-prod"
          else String.mk (fqdn.data.takeWhile (fun c => !(c == '.')))
        url := "https://" ++ fqdn
        interval := "5m"
        conditions := ["[STATUS] == 200", "[RESPONSE_TIME] < 3000"]
        alerts := [{ type := "discord", failureThreshold := 3, successThreshold := 2 }] } := by
  unfold create_simple_endpoint
  rw [pySplitOn_head]

/-- C7 witness: the two naming examples of the claim. -/
theorem C7_witness :
    strIn "." "app.prodv2.example.net" = true
      ∧ (create_simple_endpoint "app.prodv2.example.net" "unknown"
          "apps/a/ingress.yaml").name = "app-prod"
      ∧ (create_simple_endpoint "svc.cluster.internal" "unknown"
          "apps/s/ingress.yaml").name = "svc" := by
  refine ⟨by decide, ?_, by decide⟩
  rw [C7_endpoint_shape "app.prodv2.example.net" "unknown" "apps/a/ingress.yaml" (by decide)]
  decide

/-- C8: the extraction result never depends on the ingress-context flag —
the flag is threaded through the recursion but gates no rule. -/
theorem C8_ingress_flag_inert (doc : Yaml) (kus i1 i2 : Bool) :
    extract_fqdn_recursive doc i1 kus = extract_fqdn_recursive doc i2 kus :=
  extract_ing_aux doc i1 i2 kus

/-- C9: the synthesized endpoint is identical for all values of the
`app_name` and `source_file` arguments; no field carries them. -/
theorem C9_provenance_ignored (fqdn a1 s1 a2 s2 : String) :
    create_simple_endpoint fqdn a1 s1 = create_simple_endpoint fqdn a2 s2 := rfl

/-- C10: a `path` key whose value is not a string is recursed into like
any unrecognized key, so candidates nested beneath it are still
collected; only a string-valued `path` is excluded. -/
theorem C10_path_nonstring_recursed (v : Yaml) (rest : List (String × Yaml)) (ing kus : Bool)
    (h : isStrY v = false) :
    extract_fqdn_recursive (.map (("path", v) :: rest)) ing kus
      = extract_fqdn_recursive v ing kus ++ extract_fqdn_recursive (.map rest) ing kus := by
  rw [extract_map_cons]
  congr 1
  simp [extractEntry, h]

/-- C10 witness: a mapping under a `path` key still yields its nested
`host` candidate. -/
theorem C10_witness :
    isStrY (.map [("host", .str "grafana.cedille.club")]) = false
      ∧ extract_fqdn_recursive
            (.map [("path", .map [("host", .str "grafana.cedille.club")])]) false false
          = extract_fqdn_recursive (.map [("host", .str "grafana.cedille.club")]) false false
            ++ extract_fqdn_recursive (.map []) false false
      ∧ extract_fqdn_recursive
            (.map [("path", .map [("host", .str "grafana.cedille.club")])]) false false
          = ["grafana.cedille.club"] := by
  have happ := C10_path_nonstring_recursed
    (.map [("host", .str "grafana.cedille.club")]) [] false false (by decide)
  refine ⟨by decide, happ, ?_⟩
  rw [happ, extract_map_nil, extract_map_cons, extract_map_nil]
  simp only [extractEntry, List.append_nil]
  decide

/-- C2 witness: a concrete non-template file that yields one document and
then raises `boom`. -/
theorem C2_witness :
    (strIn "/templates/" (pathOf ["apps", "foo", "ingress.yaml"])
        || strIn "\\templates\\" (pathOf ["apps", "foo", "ingress.yaml"])) = false
      ∧ ((find_fqdn_in_yaml (pathOf ["apps", "foo", "ingress.yaml"])
            [Yaml.map [("host", Yaml.str "grafana.cedille.club")]] (some "boom")).1
            = (find_fqdn_in_yaml (pathOf ["apps", "foo", "ingress.yaml"])
                [Yaml.map [("host", Yaml.str "grafana.cedille.club")]] none).1
          ∧ (find_fqdn_in_yaml (pathOf ["apps", "foo", "ingress.yaml"]) [] (some "boom")).1 = []
          ∧ (find_fqdn_in_yaml (pathOf ["apps", "foo", "ingress.yaml"])
                [Yaml.map [("host", Yaml.str "grafana.cedille.club")]] (some "boom")).2
              = ["Erreur lors de la lecture de "
                  ++ pathOf ["apps", "foo", "ingress.yaml"] ++ ": " ++ "boom"]
          ∧ collectAll ([] ++ InputFile.mk ["apps", "foo", "ingress.yaml"]
                [Yaml.map [("host", Yaml.str "grafana.cedille.club")]] (some "boom") :: [])
              = collectAll []
                ++ fileRecs (InputFile.mk ["apps", "foo", "ingress.yaml"]
                    [Yaml.map [("host", Yaml.str "grafana.cedille.club")]] (some "boom"))
                ++ collectAll []
          ∧ collectAll ([] ++ InputFile.mk ["apps", "foo", "ingress.yaml"] [] (some "boom") :: [])
              = collectAll ([] ++ [])) :=
  ⟨by decide, C2_parse_error_partial [] [] ["apps", "foo", "ingress.yaml"]
      [Yaml.map [("host", Yaml.str "grafana.cedille.club")]] "boom" (by decide)⟩
